import Mathlib

/-!
Verification of the screenshot-redactor region-detection / merge pipeline and
the redaction-verification layer, against its natural-language specification.

The development shallowly embeds the TypeScript sources:
  * `src/lib/export/metadata.ts`  (luma statistics, uniformity, irreversibility check)
  * `src/lib/ocr/geom.ts`         (polyToRect, IoU, edge distance, nmsMergeRects)
  * `src/lib/ocr/detectorClient.ts` and the heuristic-client variant (disposal)
  * `src/workers/ocrWorker.ts`    (heuristic detector pipeline)
JavaScript numbers are modelled as exact rationals (`ℚ`); a possibly
non-finite JavaScript number (NaN or an infinity) is modelled as `Option ℚ`
with `none` for the non-finite case.  `Math.hypot` is modelled with
`Real.sqrt`, which makes the two definitions that use it noncomputable.
-/

namespace Metadata

/-- RGBA pixel buffer as in the TypeScript `SimpleImageData`:
`data` is the flat byte array (4 bytes per pixel, stride `width * 4`). -/
structure SimpleImageData where
  data : List ℕ
  width : ℕ
  height : ℕ
deriving DecidableEq, Repr

/-- Rec. 709 luma of one pixel, `0.2126*r + 0.7152*g + 0.0722*b`
(metadata.ts, `luma`). -/
def luma (r g b : ℕ) : ℚ :=
  (2126 / 10000) * r + (7152 / 10000) * g + (722 / 10000) * b

/-- Luma of the pixel stored at flat pixel index `p` (reads bytes
`4*p`, `4*p+1`, `4*p+2`; an out-of-range read yields 0). -/
def lumaAt (img : SimpleImageData) (p : ℕ) : ℚ :=
  luma (img.data.getD (4 * p) 0) (img.data.getD (4 * p + 1) 0) (img.data.getD (4 * p + 2) 0)

/-- Clamped integer left edge `x1 = max(0, min(width, floor(x)))` of
`regionStats` (metadata.ts line 48). -/
def clampLo (bound : ℕ) (v : ℚ) : ℕ :=
  (max 0 (min (bound : ℤ) ⌊v⌋)).toNat

/-- Clamped integer right edge `x2 = max(x1, min(width, floor(x + w)))`
(metadata.ts lines 50-51). -/
def clampHi (lo bound : ℕ) (v : ℚ) : ℕ :=
  max lo (max 0 (min (bound : ℤ) ⌊v⌋)).toNat

/-- Luma statistics of a region, as returned by `regionStats`. -/
structure Stats where
  min : ℚ
  max : ℚ
  mean : ℚ
  variance : ℚ
  count : ℕ
deriving DecidableEq, Repr

/-- The flat pixel indices visited by the `regionStats` double loop:
`yy` ranges over `[y1, y2)`, `xx` over `[x1, x2)`, index `yy*width + xx`. -/
def regionIndices (x1 y1 x2 y2 width : ℕ) : List ℕ :=
  (List.range' y1 (y2 - y1)).flatMap fun yy =>
    (List.range' x1 (x2 - x1)).map fun xx => yy * width + xx

/-- `regionStats` (metadata.ts lines 45-74): clamp the requested region to
integer in-bounds coordinates; an empty or inverted region yields all-zero
stats; otherwise compute min / max / mean / variance of the luma values.
The imperative accumulators (`min` starting at 255, `max` at 0, running
`sum`, `sum2`, `count`) are rendered as folds and sums over the visited
luma values. -/
def regionStats (img : SimpleImageData) (x y w h : ℚ) : Stats :=
  let x1 := clampLo img.width x
  let y1 := clampLo img.height y
  let x2 := clampHi x1 img.width (x + w)
  let y2 := clampHi y1 img.height (y + h)
  if x2 ≤ x1 ∨ y2 ≤ y1 then ⟨0, 0, 0, 0, 0⟩
  else
    let lumas := (regionIndices x1 y1 x2 y2 img.width).map (lumaAt img)
    let mn := lumas.foldl min 255
    let mx := lumas.foldl max 0
    let s := lumas.sum
    let s2 := (lumas.map fun v => v * v).sum
    let c := lumas.length
    ⟨mn, mx, s / c, s2 / c - (s / c) * (s / c), c⟩

/-- `isUniformRegion` (metadata.ts lines 76-79): `max - min <= tolerance`. -/
def isUniformRegion (img : SimpleImageData) (x y w h tolerance : ℚ) : Bool :=
  let st := regionStats img x y w h
  decide (st.max - st.min ≤ tolerance)

/-- The three redaction tools accepted by `assertIrreversible`. -/
inductive Tool
  | blackout
  | blur
  | pixelate
deriving DecidableEq, Repr

/-- Mean absolute luma difference of the pixelate branch
(metadata.ts lines 100-115), summed over `yy < h`, `xx < w` with the two
images' own strides. -/
def pixelateMad (before after : SimpleImageData) (w h : ℕ) : ℚ :=
  let idx := (List.range h).flatMap fun yy => (List.range w).map fun xx => (yy, xx)
  let diff := (idx.map fun p =>
    |lumaAt before (p.1 * before.width + p.2) - lumaAt after (p.1 * after.width + p.2)|).sum
  let cnt := h * w
  if cnt ≠ 0 then diff / cnt else 0

/-- `assertIrreversible` (metadata.ts lines 82-118).  JavaScript's `0.6`
literal is modelled as the rational `3/5`. -/
def assertIrreversible (before after : SimpleImageData) (tool : Tool) : Bool :=
  let w := min before.width after.width
  let h := min before.height after.height
  if w = 0 ∨ h = 0 then true
  else
    match tool with
    | .blackout =>
        let uni := isUniformRegion after 0 0 w h 2
        let stats := regionStats after 0 0 w h
        uni && decide (stats.mean < 5)
    | .blur =>
        let vb := (regionStats before 0 0 w h).variance
        let va := (regionStats after 0 0 w h).variance
        decide (va < vb * (3 / 5))
    | .pixelate =>
        decide (pixelateMad before after w h > 5)

/-- `n` RGBA pixels, all equal to `(r, g, b, a)`, flattened. -/
def uniformRGBA : ℕ → ℕ → ℕ → ℕ → ℕ → List ℕ
  | 0, _, _, _, _ => []
  | n + 1, r, g, b, a => r :: g :: b :: a :: uniformRGBA n r g b a

end Metadata

namespace Geom

/-- Axis-aligned rectangle with finite coordinates (geom.ts `Rect`). -/
structure Rect where
  x : ℚ
  y : ℚ
  width : ℚ
  height : ℚ
deriving DecidableEq, Repr

instance : Inhabited Rect := ⟨⟨0, 0, 0, 0⟩⟩

/-- A rectangle whose fields are raw JavaScript numbers: a field is `none`
when the number is non-finite (NaN or an infinity). -/
structure JRect where
  x : Option ℚ
  y : Option ℚ
  width : Option ℚ
  height : Option ℚ
deriving DecidableEq, Repr

/-- The filter `Number.isFinite` on every field (geom.ts lines 82-84):
`some` of the finite rectangle, `none` when any field is non-finite. -/
def JRect.toFinite (r : JRect) : Option Rect :=
  match r.x, r.y, r.width, r.height with
  | some a, some b, some c, some d => some ⟨a, b, c, d⟩
  | _, _, _, _ => none

/-- Inject a finite rectangle back into the raw-number representation. -/
def Rect.toJ (r : Rect) : JRect := ⟨some r.x, some r.y, some r.width, some r.height⟩

/-- The index pairs `(i, i+1)` visited by polyToRect's `i += 2` loop. -/
def polyPairs : List (Option ℚ) → List (Option ℚ × Option ℚ)
  | a :: b :: rest => (a, b) :: polyPairs rest
  | _ => []

/-- One iteration of polyToRect's min/max accumulation: the accumulator is
`none` while `minX` is still `+Infinity` (no finite pair seen yet); a pair
updates it only when both coordinates are finite (geom.ts lines 12-21). -/
def polyStep (acc : Option (ℚ × ℚ × ℚ × ℚ)) : Option ℚ × Option ℚ → Option (ℚ × ℚ × ℚ × ℚ)
  | (some px, some py) =>
      match acc with
      | none => some (px, py, px, py)
      | some (mnx, mny, mxx, mxy) => some (min mnx px, min mny py, max mxx px, max mxy py)
  | _ => acc

/-- `polyToRect` (geom.ts lines 4-28). -/
def polyToRect (poly : List (Option ℚ)) : Rect :=
  if poly.length < 4 ∨ poly.length % 2 ≠ 0 then ⟨0, 0, 0, 0⟩
  else
    match (polyPairs poly).foldl polyStep none with
    | none => ⟨0, 0, 0, 0⟩
    | some (mnx, mny, mxx, mxy) => ⟨mnx, mny, max 0 (mxx - mnx), max 0 (mxy - mny)⟩

/-- The zero-rect / bounding-box contract of polyToRect as the specification
words it: the zero rect when the array is odd-length, shorter than 4, or has
no finite coordinate pair; otherwise mins and maxes over the finite pairs
with dimensions clamped non-negative. -/
def finitePairs (poly : List (Option ℚ)) : List (ℚ × ℚ) :=
  (polyPairs poly).filterMap fun p =>
    match p with
    | (some a, some b) => some (a, b)
    | _ => none

/-- Specification-side rendering of the polyToRect contract (used only to be
compared with `polyToRect`). -/
def polyToRectSpec (poly : List (Option ℚ)) : Rect :=
  if poly.length < 4 ∨ poly.length % 2 ≠ 0 then ⟨0, 0, 0, 0⟩
  else
    match finitePairs poly with
    | [] => ⟨0, 0, 0, 0⟩
    | p :: ps =>
        let mnx := (ps.map Prod.fst).foldl min p.1
        let mny := (ps.map Prod.snd).foldl min p.2
        let mxx := (ps.map Prod.fst).foldl max p.1
        let mxy := (ps.map Prod.snd).foldl max p.2
        ⟨mnx, mny, max 0 (mxx - mnx), max 0 (mxy - mny)⟩

/-- Intersection over union of two rectangles (geom.ts lines 41-54). -/
def iou (a b : Rect) : ℚ :=
  let ax2 := a.x + a.width
  let ay2 := a.y + a.height
  let bx2 := b.x + b.width
  let by2 := b.y + b.height
  let ix := max 0 (min ax2 bx2 - max a.x b.x)
  let iy := max 0 (min ay2 by2 - max a.y b.y)
  let inter := ix * iy
  let areaA := a.width * a.height
  let areaB := b.width * b.height
  let denom := areaA + areaB - inter
  if denom ≤ 0 then 0 else inter / denom

/-- Shortest edge-to-edge distance between two boxes (geom.ts lines 57-66),
`Math.hypot` modelled with the real square root. -/
noncomputable def edgeDistance (a b : Rect) : ℝ :=
  let ax2 := a.x + a.width
  let ay2 := a.y + a.height
  let bx2 := b.x + b.width
  let by2 := b.y + b.height
  let dx := max 0 (max (b.x - ax2) (a.x - bx2))
  let dy := max 0 (max (b.y - ay2) (a.y - by2))
  if dx = 0 ∧ dy = 0 then 0 else Real.sqrt ((dx : ℝ) ^ 2 + (dy : ℝ) ^ 2)

/-- Union bounding box of two rectangles (geom.ts lines 68-74). -/
def union (a b : Rect) : Rect :=
  let x1 := min a.x b.x
  let y1 := min a.y b.y
  let x2 := max (a.x + a.width) (b.x + b.width)
  let y2 := max (a.y + a.height) (b.y + b.height)
  ⟨x1, y1, max 0 (x2 - x1), max 0 (y2 - y1)⟩

/-- Union-find root lookup; the source's path compression is omitted since it
does not change the returned root, and the fuel bounds the (acyclic) parent
chain length. -/
def findRoot : ℕ → List ℕ → ℕ → ℕ
  | 0, _, x => x
  | fuel + 1, parent, x =>
      let p := parent.getD x x
      if p = x then x else findRoot fuel parent p

/-- `unite` of the union-find (geom.ts lines 91-95). -/
def unite (parent : List ℕ) (a b : ℕ) : List ℕ :=
  let ra := findRoot parent.length parent a
  let rb := findRoot parent.length parent b
  if ra = rb then parent else parent.set rb ra

/-- The pairs `(i, j)` with `i < j < n` in the order of the source's nested
loops (geom.ts lines 97-105). -/
def pairList (n : ℕ) : List (ℕ × ℕ) :=
  (List.range n).flatMap fun i => ((List.range n).filter fun j => i < j).map fun j => (i, j)

/-- The merge criterion for one pair: IoU above threshold or edge distance
within `distancePx` (geom.ts lines 101-103). -/
def shouldMerge (iouT distT : ℚ) (r1 r2 : Rect) : Prop :=
  iouT ≤ iou r1 r2 ∨ edgeDistance r1 r2 ≤ (distT : ℝ)

open Classical in
/-- The union-find parent array after the pairwise merge pass. -/
noncomputable def buildParent (input : List Rect) (iouT distT : ℚ) : List ℕ :=
  (pairList input.length).foldl
    (fun parent ij =>
      if shouldMerge iouT distT (input.getD ij.1 default) (input.getD ij.2 default)
      then unite parent ij.1 ij.2
      else parent)
    (List.range input.length)

/-- Deduplicate keeping first occurrences: the iteration order of the
JavaScript `Map` of groups (insertion order of the roots). -/
def firstDedup (l : List ℕ) : List ℕ :=
  l.foldl (fun acc r => if r ∈ acc then acc else acc ++ [r]) []

/-- Fold of `union` over a cluster, from its first member
(geom.ts lines 117-121). -/
def unionAll : List Rect → Rect
  | [] => default
  | a :: t => t.foldl union a

/-- `nmsMergeRects` (geom.ts lines 76-124). -/
noncomputable def nmsMergeRects (rects : List JRect) (iouThresh distancePx : ℚ) : List Rect :=
  let iouT := max 0 (min 1 iouThresh)
  let distT := max 0 distancePx
  let input := rects.filterMap JRect.toFinite
  if input.length ≤ 1 then input
  else
    let n := input.length
    let parent := buildParent input iouT distT
    let root := fun i => findRoot n parent i
    (firstDedup ((List.range n).map root)).map fun rt =>
      unionAll (((List.range n).filter fun i => root i = rt).map fun i => input.getD i default)

end Geom

namespace DetectorClient

/-- What happens to one detection request's promise. -/
inductive PromiseOutcome
  | resolvedBoxes (boxes : List (List ℚ))
  | rejected (msg : String)
deriving DecidableEq, Repr

/-- The client's module-level state: the singleton worker handle and the
pending-request table keyed by correlation id (insertion order kept, as in
the JavaScript `Map`). -/
structure ClientState where
  workerAlive : Bool
  pending : List String
deriving DecidableEq, Repr

/-- `disposeDetectorWorker` of detectorClient.ts (lines 74-83): terminate
the worker, reject every outstanding request with a "Worker disposed" error
(in table order), and clear the pending table.  Returned are the promise
outcomes produced by the call and the state it leaves behind. -/
def disposeDetectorWorker (s : ClientState) : List (String × PromiseOutcome) × ClientState :=
  (s.pending.map fun rid => (rid, PromiseOutcome.rejected "Worker disposed"), ⟨false, []⟩)

/-- The heuristic-client variant of `disposeDetectorWorker` (the module of
geom.ts, lines 264-268): terminate the worker and clear the pending table;
no promise is rejected. -/
def disposeDetectorWorkerHeuristic (_s : ClientState) : List (String × PromiseOutcome) × ClientState :=
  ([], ⟨false, []⟩)

end DetectorClient

namespace OcrWorker

/-- Detector sensitivity tiers. -/
inductive Sens
  | low
  | med
  | high
deriving DecidableEq, Repr

/-- `toGrayscale` (ocrWorker.ts heuristic part, lines 209-222): Rec. 709 luma
of each RGBA quadruple; the JavaScript `y & 0xff` on the non-negative float
is the floor taken modulo 256. -/
def toGrayscale : List ℕ → List ℕ
  | r :: g :: b :: _a :: rest => ((⌊Metadata.luma r g b⌋).toNat % 256) :: toGrayscale rest
  | _ => []

/-- `sobelMag` (lines 224-240): 3x3 Sobel magnitude per pixel, zero on the
1-pixel border, `Math.hypot` modelled with the real square root.  The
imperative fill of the `Float32` buffer is rendered as a map over the flat
pixel indices. -/
noncomputable def sobelMag (gray : List ℕ) (w h : ℕ) : List ℝ :=
  (List.range (w * h)).map fun p =>
    let x := p % w
    let y := p / w
    if 1 ≤ x ∧ x + 1 < w ∧ 1 ≤ y ∧ y + 1 < h then
      let g := fun q => ((gray.getD q 0 : ℕ) : ℝ)
      let gx := -g (p - w - 1) - 2 * g (p - 1) - g (p + w - 1)
                + g (p - w + 1) + 2 * g (p + 1) + g (p + w + 1)
      let gy := -g (p - w - 1) - 2 * g (p - w) - g (p - w + 1)
                + g (p + w - 1) + 2 * g (p + w) + g (p + w + 1)
      Real.sqrt (gx ^ 2 + gy ^ 2)
    else 0

open Classical in
/-- `normalizeToUint8` (lines 242-258).  The source seeds its running
min/max with `±Infinity`; over a non-empty value list that equals folding
from the first element, and for an empty map nothing is emitted.  The
JavaScript truncation `nv | 0` on the clamped non-negative value is the
floor. -/
noncomputable def normalizeToUint8 (f : List ℝ) (w h : ℕ) : List ℕ :=
  let vals := (List.range (w * h)).map fun i => f.getD i 0
  match vals with
  | [] => []
  | v0 :: rest =>
      let mn := rest.foldl min v0
      let mx := rest.foldl max v0
      let denom := if mn < mx then mx - mn else 1
      vals.map fun v =>
        let nv := 255 * (v - mn) / denom
        if nv < 0 then 0 else if 255 < nv then 255 else (⌊nv⌋).toNat

/-- One step of the Otsu threshold scan (lines 269-282): the state carries
`(sumB, wB, varMax, threshold)`; the `break` on an empty foreground is an
`Except.error` that freezes the threshold for the remaining iterations. -/
def otsuStep (hist : ℕ → ℕ) (total : ℕ) (sum : ℚ) (st : Except ℕ (ℚ × ℕ × ℚ × ℕ)) (t : ℕ) :
    Except ℕ (ℚ × ℕ × ℚ × ℕ) :=
  match st with
  | .error thr => .error thr
  | .ok (sumB, wB, varMax, thr) =>
      let wB2 := wB + hist t
      if wB2 = 0 then .ok (sumB, wB2, varMax, thr)
      else
        let wF := total - wB2
        if wF = 0 then .error thr
        else
          let sumB2 := sumB + (t : ℚ) * hist t
          let mB := sumB2 / wB2
          let mF := (sum - sumB2) / wF
          let between := (wB2 : ℚ) * wF * ((mB - mF) * (mB - mF))
          if varMax < between then .ok (sumB2, wB2, between, t)
          else .ok (sumB2, wB2, varMax, thr)

/-- The threshold carried in a final scan state (broken-out or completed). -/
def otsuResult : Except ℕ (ℚ × ℕ × ℚ × ℕ) → ℕ
  | .error thr => thr
  | .ok (_, _, _, thr) => thr

/-- `otsuThreshold` (lines 260-284): scan thresholds 0..255 maximizing the
between-class variance. -/
def otsuThreshold (hist : ℕ → ℕ) (total : ℕ) : ℕ :=
  let sum : ℚ := ((List.range 256).map fun (t : ℕ) => (t : ℚ) * hist t).sum
  otsuResult ((List.range 256).foldl (otsuStep hist total sum) (.ok (0, 0, 0, 0)))

/-- The effective binarization threshold of `thresholdBinary`
(lines 286-294): Otsu's threshold on the image histogram plus the
sensitivity bias (`low:+12, med:0, high:-12`), clamped to `[0, 255]`. -/
def effectiveThreshold (img : List ℕ) (w h : ℕ) (sens : Sens) : ℤ :=
  let n := w * h
  let vals := (List.range n).map fun i => img.getD i 0
  let hist := fun t => vals.count t
  let thr := otsuThreshold hist n
  let bias : ℤ := match sens with
    | .low => 12
    | .med => 0
    | .high => -12
  max 0 (min 255 ((thr : ℤ) + bias))

/-- `thresholdBinary` (lines 286-298): binary mask `img[i] > thr`. -/
def thresholdBinary (img : List ℕ) (w h : ℕ) (sens : Sens) : List ℕ :=
  let thr := effectiveThreshold img w h sens
  (List.range (w * h)).map fun i => if thr < (img.getD i 0 : ℤ) then 1 else 0

/-- The clamped `(2r+1) x (2r+1)` neighborhood indices scanned by `dilate`
and `erode` around flat index `p`. -/
def window (w h r : ℕ) (p : ℕ) : List ℕ :=
  let x := p % w
  let y := p / w
  let x0 := x - r
  let x1 := min (w - 1) (x + r)
  let y0 := y - r
  let y1 := min (h - 1) (y + r)
  (List.range' y0 (y1 + 1 - y0)).flatMap fun yy =>
    (List.range' x0 (x1 + 1 - x0)).map fun xx => yy * w + xx

/-- `dilate` (lines 300-318). -/
def dilate (src : List ℕ) (w h radius : ℕ) : List ℕ :=
  let r := max 1 radius
  (List.range (w * h)).map fun p =>
    if (window w h r p).any fun q => decide (src.getD q 0 ≠ 0) then 1 else 0

/-- `erode` (lines 320-338). -/
def erode (src : List ℕ) (w h radius : ℕ) : List ℕ :=
  let r := max 1 radius
  (List.range (w * h)).map fun p =>
    if (window w h r p).all fun q => decide (src.getD q 0 ≠ 0) then 1 else 0

/-- Component bounding rectangle of the worker (ocrWorker.ts `Rect`, line
340): bbox coordinates with bbox area and lit-pixel count. -/
structure CRect where
  x : ℕ
  y : ℕ
  w : ℕ
  h : ℕ
  area : ℕ
  fill : ℕ
deriving DecidableEq, Repr

instance : Inhabited CRect := ⟨⟨0, 0, 0, 0, 0, 0⟩⟩

/-- Running bounding-box accumulator of one flood fill. -/
structure Box where
  minx : ℕ
  miny : ℕ
  maxx : ℕ
  maxy : ℕ
  cnt : ℕ
deriving DecidableEq, Repr

/-- The 8-neighborhood of `(qx, qy)` inside the full `w x h` grid, in the
source's `dy`-outer / `dx`-inner scan order (lines 360-368). -/
def neighbors (w h qx qy : ℕ) : List ℕ :=
  ([-1, 0, 1] : List ℤ).flatMap fun dy =>
    ([-1, 0, 1] : List ℤ).flatMap fun dx =>
      if dx = 0 ∧ dy = 0 then []
      else
        let nx := (qx : ℤ) + dx
        let ny := (qy : ℤ) + dy
        if nx < 0 ∨ ny < 0 ∨ (w : ℤ) ≤ nx ∨ (h : ℤ) ≤ ny then []
        else [ny.toNat * w + nx.toNat]

/-- The stack-driven flood fill of one connected component (lines 355-369).
Unvisited lit neighbors are marked and pushed in one batch (they are
pairwise distinct, so this equals the source's per-neighbor push), with the
stack's top at the list head.  The fuel only bounds the loop: each iteration
pops a visited cell and cells are pushed at most once, so fuel `w*h + 1`
is never exhausted. -/
def flood (mask : List ℕ) (w h : ℕ) :
    ℕ → List ℕ → List Bool → Box → List Bool × Box
  | 0, _, visited, acc => (visited, acc)
  | _ + 1, [], visited, acc => (visited, acc)
  | fuel + 1, q :: stack, visited, acc =>
      let qx := q % w
      let qy := q / w
      let acc2 : Box := ⟨min acc.minx qx, min acc.miny qy, max acc.maxx qx, max acc.maxy qy,
        acc.cnt + 1⟩
      let fresh := (neighbors w h qx qy).filter fun np =>
        decide (mask.getD np 0 ≠ 0) && !(visited.getD np false)
      let visited2 := fresh.foldl (fun vs np => vs.set np true) visited
      flood mask w h fuel (fresh.reverse ++ stack) visited2 acc2

/-- `ccBoundingRects` (lines 342-376): scan pixels in row-major order,
flood-fill each unvisited lit pixel, and emit its component's bounding
rectangle with area and fill count. -/
def ccBoundingRects (mask : List ℕ) (w h : ℕ) : List CRect :=
  ((List.range (w * h)).foldl
    (fun st p =>
      if mask.getD p 0 = 0 ∨ st.1.getD p false then st
      else
        let res := flood mask w h (w * h + 1) [p] (st.1.set p true)
          ⟨p % w, p / w, p % w, p / w, 0⟩
        let b := res.2
        let bw := b.maxx - b.minx + 1
        let bh := b.maxy - b.miny + 1
        (res.1, st.2 ++ [⟨b.minx, b.miny, bw, bh, bw * bh, b.cnt⟩]))
    (List.replicate (w * h) false, [])).2

/-- Worker-side IoU over component rectangles (lines 378-389); uses the
rectangles' stored `area` fields. -/
def iouW (a b : CRect) : ℚ :=
  let ax2 := a.x + a.w
  let ay2 := a.y + a.h
  let bx2 := b.x + b.w
  let by2 := b.y + b.h
  let ix : ℚ := max 0 ((min ax2 bx2 : ℕ) - (max a.x b.x : ℕ) : ℤ)
  let iy : ℚ := max 0 ((min ay2 by2 : ℕ) - (max a.y b.y : ℕ) : ℤ)
  let inter := ix * iy
  let denom := (a.area : ℚ) + b.area - inter
  if denom ≤ 0 then 0 else inter / denom

/-- Worker-side edge distance (lines 391-400). -/
noncomputable def edgeDistanceW (a b : CRect) : ℝ :=
  let ax2 := a.x + a.w
  let ay2 := a.y + a.h
  let bx2 := b.x + b.w
  let by2 := b.y + b.h
  let dx : ℤ := max 0 (max ((b.x : ℤ) - ax2) ((a.x : ℤ) - bx2))
  let dy : ℤ := max 0 (max ((b.y : ℤ) - ay2) ((a.y : ℤ) - by2))
  if dx = 0 ∧ dy = 0 then 0 else Real.sqrt ((dx : ℝ) ^ 2 + (dy : ℝ) ^ 2)

/-- The worker merge criterion for one pair (line 412). -/
def shouldMergeW (iouT distT : ℚ) (a b : CRect) : Prop :=
  iouT ≤ iouW a b ∨ edgeDistanceW a b ≤ (distT : ℝ)

open Classical in
/-- The union-find parent array of the worker's merge pass (lines 406-414). -/
noncomputable def buildParentW (input : List CRect) (iouT distT : ℚ) : List ℕ :=
  (Geom.pairList input.length).foldl
    (fun parent ij =>
      if shouldMergeW iouT distT (input.getD ij.1 default) (input.getD ij.2 default)
      then Geom.unite parent ij.1 ij.2
      else parent)
    (List.range input.length)

/-- Collapse one cluster to its union bbox with summed fill
(lines 423-433); width and height are floored at 1. -/
def mergeGroup (arr : List CRect) : CRect :=
  match arr with
  | [] => default
  | a :: _ =>
      let x1 := arr.foldl (fun m r => min m r.x) a.x
      let y1 := arr.foldl (fun m r => min m r.y) a.y
      let x2 := arr.foldl (fun m r => max m (r.x + r.w)) (a.x + a.w)
      let y2 := arr.foldl (fun m r => max m (r.y + r.h)) (a.y + a.h)
      let fl := (arr.map CRect.fill).sum
      let w2 := max 1 (x2 - x1)
      let h2 := max 1 (y2 - y1)
      ⟨x1, y1, w2, h2, w2 * h2, fl⟩

/-- `mergeRects` (lines 402-435), the worker's internal merge. -/
noncomputable def mergeRects (rects : List CRect) (iouThresh distPx : ℚ) : List CRect :=
  if rects.length ≤ 1 then rects
  else
    let n := rects.length
    let parent := buildParentW rects iouThresh distPx
    let root := fun i => Geom.findRoot n parent i
    (Geom.firstDedup ((List.range n).map root)).map fun rt =>
      mergeGroup (((List.range n).filter fun i => root i = rt).map fun i => rects.getD i default)

/-- The component filter of `detectHeuristic` (lines 477-492). -/
def rectFilter (sens : Sens) (r : CRect) : Bool :=
  let minArea : ℕ := match sens with
    | .low => 80
    | .high => 24
    | .med => 40
  let minDim : ℕ := 6
  let maxAspect : ℚ := 40
  let minAspect : ℚ := 3 / 20
  let minFillFrac : ℚ := match sens with
    | .low => 1 / 20
    | .high => 3 / 200
    | .med => 3 / 100
  if r.w < minDim ∨ r.h < minDim then false
  else if r.area < minArea then false
  else
    let ar : ℚ := (r.w : ℚ) / (if r.h = 0 then 1 else (r.h : ℚ))
    if (ar < minAspect ∨ maxAspect < ar) ∧ (1 / ar < minAspect ∨ maxAspect < 1 / ar) then false
    else
      let fillFrac : ℚ := (r.fill : ℚ) / (if r.area = 0 then 1 else (r.area : ℚ))
      if fillFrac < minFillFrac then false else true

/-- `detectHeuristic` (lines 437-508) from the downscaled `ImageData`
onward: the preceding canvas draw (`drawImage` / `getImageData`) is a
browser primitive outside the embedding, so the pipeline takes the
downscaled RGBA buffer `data` of size `w x h` and the upscale factors
`sx = w0/w`, `sy = h0/h` as inputs.  Sensitivity-dependent constants are
the source's (close radius 3/2/2, merge IoU 0.15, merge distance 2/3/5). -/
noncomputable def detectHeuristic (data : List ℕ) (w h : ℕ) (sens : Sens) (sx sy : ℚ) :
    List (List ℤ) :=
  let gray := toGrayscale data
  let mag := sobelMag gray w h
  let norm := normalizeToUint8 mag w h
  let mask0 := thresholdBinary norm w h sens
  let r : ℕ := match sens with
    | .low => 3
    | .high => 2
    | .med => 2
  let mask := erode (dilate mask0 w h r) w h r
  let rects0 := ccBoundingRects mask w h
  let rects1 := rects0.filter (rectFilter sens)
  let iouThresh : ℚ := 3 / 20
  let distPx : ℚ := match sens with
    | .low => 2
    | .high => 5
    | .med => 3
  let rects2 := mergeRects rects1 iouThresh distPx
  rects2.map fun rc =>
    let x1 := round ((rc.x : ℚ) * sx)
    let y1 := round ((rc.y : ℚ) * sy)
    let x2 := round (((rc.x + rc.w : ℕ) : ℚ) * sx)
    let y2 := round (((rc.y + rc.h : ℕ) : ℚ) * sy)
    [x1, y1, x2, y1, x2, y2, x1, y2]

end OcrWorker

/-! ## Theorems -/

open Metadata Geom DetectorClient OcrWorker

theorem intToNat_ofNat (n : ℕ) : (no_index (OfNat.ofNat n) : ℤ).toNat = OfNat.ofNat n := rfl

theorem list_map_sq_sum_nonneg (l : List ℚ) : 0 ≤ (l.map fun v => v * v).sum := by
  induction l with
  | nil => simp
  | cons a t ih =>
      simp only [List.map_cons, List.sum_cons]
      nlinarith [mul_self_nonneg a]

theorem list_sum_sq_le (l : List ℚ) :
    l.sum * l.sum ≤ (l.length : ℚ) * (l.map fun v => v * v).sum := by
  induction l with
  | nil => simp
  | cons a t ih =>
      rcases t with _ | ⟨b, t2⟩
      · simp only [List.sum_cons, List.sum_nil, List.map_cons, List.map_nil, List.length_cons,
          List.length_nil]
        norm_num
      · have hQ2 : 0 ≤ b * b + (t2.map fun v => v * v).sum := by
          have := list_map_sq_sum_nonneg (b :: t2)
          simpa using this
        have hm : (0 : ℚ) ≤ (t2.length : ℚ) := Nat.cast_nonneg _
        simp only [List.sum_cons, List.map_cons, List.length_cons] at ih ⊢
        push_cast at ih ⊢
        nlinarith [ih, hQ2, hm, sq_nonneg (((t2.length : ℚ) + 1) * a - (b + t2.sum)),
          sq_nonneg a, sq_nonneg (b + t2.sum)]

theorem statsVar_nonneg (l : List ℚ) :
    0 ≤ (l.map fun v => v * v).sum / l.length - (l.sum / l.length) * (l.sum / l.length) := by
  rcases l with _ | ⟨a, t⟩
  · simp
  · set L := a :: t with hL
    have hc : (0 : ℚ) < L.length := by
      rw [hL]
      simp only [List.length_cons]
      positivity
    rw [sub_nonneg]
    have key := list_sum_sq_le L
    have hcc : (0 : ℚ) < (L.length : ℚ) * L.length := by positivity
    rw [show (L.sum / L.length) * (L.sum / L.length)
        = L.sum * L.sum / ((L.length : ℚ) * L.length) by ring]
    rw [div_le_div_iff₀ hcc hc]
    nlinarith [key, hc.le]

theorem regionStats_variance_nonneg (img : SimpleImageData) (x y w h : ℚ) :
    0 ≤ (regionStats img x y w h).variance := by
  simp only [regionStats]
  split
  · norm_num
  · exact statsVar_nonneg _

/-- C1 (amended): for every pair of before/after regions and any tool, if
either image has a zero width or a zero height (so the overlapping
min-width by min-height region is empty), `assertIrreversible` returns
`true` without comparing pixel content; regions with mismatched but
non-zero dimensions are instead compared over the overlap. -/
theorem c1_amended_zero_dims (before after : SimpleImageData) (tool : Tool)
    (h : min before.width after.width = 0 ∨ min before.height after.height = 0) :
    assertIrreversible before after tool = true := by
  simp only [assertIrreversible]
  rw [if_pos h]

theorem c1_witness :
    assertIrreversible ⟨[], 0, 0⟩ ⟨uniformRGBA 1 5 5 5 255, 1, 1⟩ Tool.blackout = true :=
  c1_amended_zero_dims _ _ _ (Or.inl rfl)

/-- C1 counterexample: a 1x1 mid-gray before-image and a 2x2 mid-gray
after-image have mismatched dimensions, yet `assertIrreversible` with tool
`blackout` compares the overlapping 1x1 region and returns `false`, not
`true` as the claim states for mismatched dimensions. -/
theorem c1_counterexample :
    (⟨uniformRGBA 1 128 128 128 255, 1, 1⟩ : SimpleImageData).width
      ≠ (⟨uniformRGBA 4 128 128 128 255, 2, 2⟩ : SimpleImageData).width
    ∧ assertIrreversible ⟨uniformRGBA 1 128 128 128 255, 1, 1⟩
        ⟨uniformRGBA 4 128 128 128 255, 2, 2⟩ Tool.blackout = false := by
  constructor
  · decide
  · norm_num [assertIrreversible, isUniformRegion, regionStats, regionIndices, clampLo, clampHi,
      lumaAt, luma, uniformRGBA, intToNat_ofNat, List.flatMap_cons, List.flatMap_nil,
      show List.range' 0 1 = [0] from rfl]

/-- C10: for every image, region and tolerance at least 0, a region whose
clamped-to-bounds intersection with the image is empty (zero or inverted
extent, or entirely out of bounds) gets all-zero statistics from
`regionStats`, and `isUniformRegion` returns `true` on it since
`0 - 0 <= tolerance`. -/
theorem c10_empty_region_uniform (img : SimpleImageData) (x y w h tol : ℚ)
    (htol : 0 ≤ tol)
    (hempty : clampHi (clampLo img.width x) img.width (x + w) ≤ clampLo img.width x
      ∨ clampHi (clampLo img.height y) img.height (y + h) ≤ clampLo img.height y) :
    regionStats img x y w h = ⟨0, 0, 0, 0, 0⟩ ∧ isUniformRegion img x y w h tol = true := by
  have hrs : regionStats img x y w h = ⟨0, 0, 0, 0, 0⟩ := by
    simp only [regionStats]
    rw [if_pos hempty]
  refine ⟨hrs, ?_⟩
  simp [isUniformRegion, hrs, htol]

theorem c10_witness :
    isUniformRegion ⟨uniformRGBA 1 7 8 9 255, 1, 1⟩ 5 0 1 1 0 = true :=
  (c10_empty_region_uniform ⟨uniformRGBA 1 7 8 9 255, 1, 1⟩ 5 0 1 1 0 le_rfl
    (Or.inl (by norm_num [clampLo, clampHi, intToNat_ofNat]))).2

/-- C5: with tool `blackout` and a non-empty overlap region,
`assertIrreversible` returns `true` exactly when the after-region is
near-uniform (luma spread within tolerance 2) and its mean luma is below 5
on the 0-255 scale. -/
theorem c5_blackout_iff (before after : SimpleImageData)
    (hw : min before.width after.width ≠ 0) (hh : min before.height after.height ≠ 0) :
    (assertIrreversible before after Tool.blackout = true ↔
      isUniformRegion after 0 0 (min before.width after.width)
          (min before.height after.height) 2 = true
        ∧ (regionStats after 0 0 (min before.width after.width)
            (min before.height after.height)).mean < 5) := by
  simp only [assertIrreversible]
  rw [if_neg (by tauto)]
  simp [Bool.and_eq_true, decide_eq_true_eq]

set_option maxHeartbeats 3200000 in
theorem c5_witness :
    assertIrreversible ⟨uniformRGBA 16 128 128 128 255, 4, 4⟩
      ⟨uniformRGBA 16 0 0 0 255, 4, 4⟩ Tool.blackout = true
    ∧ assertIrreversible ⟨uniformRGBA 16 128 128 128 255, 4, 4⟩
        ⟨uniformRGBA 16 128 128 128 255, 4, 4⟩ Tool.blackout = false := by
  have hr0 : List.range' 0 4 = [0, 1, 2, 3] := rfl
  have hr4 : List.range' 4 4 = [4, 5, 6, 7] := rfl
  have hr8 : List.range' 8 4 = [8, 9, 10, 11] := rfl
  have hr12 : List.range' 12 4 = [12, 13, 14, 15] := rfl
  constructor
  · exact (c5_blackout_iff _ _ (by decide) (by decide)).mpr
      (by
        constructor
        · norm_num [isUniformRegion, regionStats, regionIndices, clampLo, clampHi, lumaAt, luma,
            uniformRGBA, intToNat_ofNat, hr0, hr4, hr8, hr12, List.flatMap_cons, List.flatMap_nil]
        · norm_num [regionStats, regionIndices, clampLo, clampHi, lumaAt, luma,
            uniformRGBA, intToNat_ofNat, hr0, hr4, hr8, hr12, List.flatMap_cons, List.flatMap_nil])
  · norm_num [assertIrreversible, isUniformRegion, regionStats, regionIndices, clampLo,
      clampHi, lumaAt, luma, uniformRGBA, intToNat_ofNat, hr0, hr4, hr8, hr12,
      List.flatMap_cons, List.flatMap_nil]

/-- C9: when before and after have equal non-zero dimensions and the
before-region has zero luma variance, the blur check can never pass: the
after-region variance is non-negative and so is never strictly below
`0 * 0.6`, hence `assertIrreversible` with tool `blur` returns `false`. -/
theorem c9_blur_zero_variance (before after : SimpleImageData)
    (hweq : before.width = after.width) (hheq : before.height = after.height)
    (hw : before.width ≠ 0) (hh : before.height ≠ 0)
    (hvar : (regionStats before 0 0 before.width before.height).variance = 0) :
    assertIrreversible before after Tool.blur = false := by
  have hmw : min before.width after.width = before.width := by rw [← hweq, min_self]
  have hmh : min before.height after.height = before.height := by rw [← hheq, min_self]
  simp only [assertIrreversible]
  rw [if_neg (by rw [hmw, hmh]; tauto)]
  rw [hmw, hmh, hvar, zero_mul]
  exact decide_eq_false (not_lt.mpr (regionStats_variance_nonneg _ _ _ _ _))

theorem c9_witness :
    assertIrreversible ⟨uniformRGBA 4 128 128 128 255, 2, 2⟩
      ⟨[0, 0, 0, 255, 255, 255, 255, 255, 255, 255, 255, 255, 0, 0, 0, 255], 2, 2⟩
      Tool.blur = false :=
  c9_blur_zero_variance _ _ rfl rfl (by decide) (by decide)
    (by norm_num [regionStats, regionIndices, clampLo, clampHi, lumaAt, luma, uniformRGBA,
      intToNat_ofNat, List.flatMap_cons, List.flatMap_nil,
      show List.range' 0 2 = [0, 1] from rfl, show List.range' 2 2 = [2, 3] from rfl])

theorem polyFold_some (ps : List (Option ℚ × Option ℚ)) :
    ∀ A B C D : ℚ,
      ps.foldl polyStep (some (A, B, C, D)) =
        some
          (((ps.filterMap fun p => match p with
              | (some a, some b) => some (a, b)
              | _ => none).map Prod.fst).foldl min A,
           ((ps.filterMap fun p => match p with
              | (some a, some b) => some (a, b)
              | _ => none).map Prod.snd).foldl min B,
           ((ps.filterMap fun p => match p with
              | (some a, some b) => some (a, b)
              | _ => none).map Prod.fst).foldl max C,
           ((ps.filterMap fun p => match p with
              | (some a, some b) => some (a, b)
              | _ => none).map Prod.snd).foldl max D) := by
  induction ps with
  | nil =>
      intro A B C D
      rfl
  | cons p t ih =>
      intro A B C D
      rcases p with ⟨(_ | a), (_ | b)⟩
      · simpa only [List.foldl_cons, polyStep, List.filterMap_cons] using ih A B C D
      · simpa only [List.foldl_cons, polyStep, List.filterMap_cons] using ih A B C D
      · simpa only [List.foldl_cons, polyStep, List.filterMap_cons] using ih A B C D
      · simpa only [List.foldl_cons, polyStep, List.filterMap_cons, List.map_cons,
          List.foldl_cons] using ih (min A a) (min B b) (max C a) (max D b)

theorem polyFold_none (ps : List (Option ℚ × Option ℚ)) :
    ps.foldl polyStep none =
      match ps.filterMap fun p => match p with
          | (some a, some b) => some (a, b)
          | _ => none with
      | [] => none
      | q :: qs =>
          some
            ((qs.map Prod.fst).foldl min q.1, (qs.map Prod.snd).foldl min q.2,
             (qs.map Prod.fst).foldl max q.1, (qs.map Prod.snd).foldl max q.2) := by
  induction ps with
  | nil => rfl
  | cons p t ih =>
      rcases p with ⟨(_ | a), (_ | b)⟩
      · simpa only [List.foldl_cons, polyStep, List.filterMap_cons] using ih
      · simpa only [List.foldl_cons, polyStep, List.filterMap_cons] using ih
      · simpa only [List.foldl_cons, polyStep, List.filterMap_cons] using ih
      · simp only [List.foldl_cons, polyStep, List.filterMap_cons]
        rw [polyFold_some]

/-- C4: `polyToRect` never throws (it is a total function) and agrees
everywhere with the specification contract `polyToRectSpec`: the zero rect
for odd-length, too-short, or no-finite-pair input; otherwise the bounding
box of the finite coordinate pairs with non-negative clamped dimensions.
In particular `polyToRect [10,20,110,20,110,70,10,70]` is
`{x:10, y:20, width:100, height:50}`. -/
theorem c4_polyToRect :
    (∀ poly : List (Option ℚ), polyToRect poly = polyToRectSpec poly)
    ∧ polyToRect [some 10, some 20, some 110, some 20, some 110, some 70, some 10, some 70]
        = ⟨10, 20, 100, 50⟩ := by
  constructor
  · intro poly
    unfold polyToRect polyToRectSpec
    split
    · rfl
    · rw [polyFold_none]
      unfold finitePairs
      rcases h : (polyPairs poly).filterMap fun p => match p with
          | (some a, some b) => some (a, b)
          | _ => none with _ | ⟨q, qs⟩
      · rw [h]
      · rw [h]
  · norm_num [polyToRect, polyPairs, polyStep]

/-- C6: an input list holding at most one rectangle is returned as a copy,
unchanged except that non-finite rectangles are silently dropped. -/
theorem c6_small_input (rects : List JRect) (iouThresh distancePx : ℚ)
    (h : rects.length ≤ 1) :
    nmsMergeRects rects iouThresh distancePx = rects.filterMap JRect.toFinite := by
  have hlen : (rects.filterMap JRect.toFinite).length ≤ 1 :=
    le_trans (List.length_filterMap_le _ _) h
  simp only [nmsMergeRects]
  rw [if_pos hlen]

theorem c6_witness :
    nmsMergeRects [Rect.toJ ⟨1, 2, 3, 4⟩] 7 9 = [⟨1, 2, 3, 4⟩] := by
  rw [c6_small_input _ _ _ (by decide)]
  rfl

theorem firstDedup_aux (l : List ℕ) :
    ∀ acc : List ℕ,
      (l.foldl (fun acc r => if r ∈ acc then acc else acc ++ [r]) acc).length ≤
        acc.length + l.length := by
  induction l with
  | nil =>
      intro acc
      simp
  | cons a t ih =>
      intro acc
      simp only [List.foldl_cons]
      refine le_trans (ih _) ?_
      split
      · simp only [List.length_cons]
        omega
      · simp only [List.length_append, List.length_cons, List.length_nil]
        omega

theorem firstDedup_length_le (l : List ℕ) : (firstDedup l).length ≤ l.length := by
  simpa using firstDedup_aux l []

theorem nmsMergeRects_length_le (rects : List JRect) (iouThresh distancePx : ℚ) :
    (nmsMergeRects rects iouThresh distancePx).length
      ≤ (rects.filterMap JRect.toFinite).length := by
  simp only [nmsMergeRects]
  split
  · exact le_refl _
  · rw [List.length_map]
    refine le_trans (firstDedup_length_le _) ?_
    rw [List.length_map, List.length_range]

theorem filterMap_toFinite_map_toJ (l : List Rect) :
    (l.map Rect.toJ).filterMap JRect.toFinite = l := by
  induction l with
  | nil => rfl
  | cons a t ih => simp [Rect.toJ, JRect.toFinite, ih]

/-- C2 (amended): `nmsMergeRects` is not idempotent in general — merging
its own output with the same thresholds can collapse clusters further,
because a cluster's union bbox can overlap or come within `distancePx` of
another output rect even though no pair of original members did — but a
second application never increases the rectangle count. -/
theorem c2_amended_second_pass (rects : List JRect) (iouThresh distancePx : ℚ) :
    (nmsMergeRects ((nmsMergeRects rects iouThresh distancePx).map Rect.toJ)
        iouThresh distancePx).length
      ≤ (nmsMergeRects rects iouThresh distancePx).length := by
  refine le_trans (nmsMergeRects_length_le _ _ _) ?_
  rw [filterMap_toFinite_map_toJ]

/-- C7 (amended): `disposeDetectorWorker` of detectorClient.ts rejects
every outstanding request with a "Worker disposed" error and leaves the
pending table empty; the heuristic-client variant instead clears the table
without rejecting, leaving its outstanding promises unresolved. -/
theorem c7_amended_dispose (s : ClientState) (rid : String) (h : rid ∈ s.pending) :
    (rid, PromiseOutcome.rejected "Worker disposed") ∈ (disposeDetectorWorker s).1
    ∧ (disposeDetectorWorker s).2.pending = [] := by
  constructor
  · simp only [disposeDetectorWorker]
    exact List.mem_map_of_mem _ h
  · rfl

theorem c7_witness :
    ("r1", PromiseOutcome.rejected "Worker disposed")
        ∈ (disposeDetectorWorker ⟨true, ["r1"]⟩).1
    ∧ (disposeDetectorWorker ⟨true, ["r1"]⟩).2.pending = [] :=
  c7_amended_dispose ⟨true, ["r1"]⟩ "r1" (by simp)

/-- C7 counterexample: the heuristic-client variant, disposed while one
request is outstanding, emits no rejection outcome at all, yet clears the
pending table — the outstanding promise is left unresolved rather than
rejected with a "disposed" error. -/
theorem c7_counterexample :
    (disposeDetectorWorkerHeuristic ⟨true, ["r1"]⟩).1 = []
    ∧ (disposeDetectorWorkerHeuristic ⟨true, ["r1"]⟩).2.pending = [] :=
  ⟨rfl, rfl⟩

theorem getD_map_range {α : Type} (f : ℕ → α) (n i : ℕ) (d : α) :
    ((List.range n).map f).getD i d = if i < n then f i else d := by
  rcases lt_or_ge i n with hi | hi
  · rw [List.getD_eq_getElem?_getD, List.getElem?_map, List.getElem?_range hi]
    simp [hi]
  · rw [List.getD_eq_getElem?_getD, List.getElem?_eq_none
      (by simpa [List.length_map, List.length_range] using hi)]
    simp [Nat.not_lt.mpr hi]

/-- C8: the effective binarization threshold is monotone in sensitivity —
Otsu's threshold biased by `+12 / 0 / -12` and clamped to `[0,255]`
satisfies `low >= med >= high` on every image — so every pixel lit in the
low-sensitivity mask is lit in the med mask, and every pixel lit in the med
mask is lit in the high mask. -/
theorem c8_threshold_monotone (img : List ℕ) (w h : ℕ) :
    (effectiveThreshold img w h Sens.med ≤ effectiveThreshold img w h Sens.low
      ∧ effectiveThreshold img w h Sens.high ≤ effectiveThreshold img w h Sens.med)
    ∧ ∀ i : ℕ,
        ((thresholdBinary img w h Sens.low).getD i 0 = 1 →
          (thresholdBinary img w h Sens.med).getD i 0 = 1)
        ∧ ((thresholdBinary img w h Sens.med).getD i 0 = 1 →
          (thresholdBinary img w h Sens.high).getD i 0 = 1) := by
  have hml : effectiveThreshold img w h Sens.med ≤ effectiveThreshold img w h Sens.low := by
    simp only [effectiveThreshold]
    exact max_le_max le_rfl (min_le_min le_rfl (by linarith))
  have hhm : effectiveThreshold img w h Sens.high ≤ effectiveThreshold img w h Sens.med := by
    simp only [effectiveThreshold]
    exact max_le_max le_rfl (min_le_min le_rfl (by linarith))
  refine ⟨⟨hml, hhm⟩, ?_⟩
  intro i
  by_cases hi : i < w * h
  · constructor
    · intro h1
      simp only [thresholdBinary, getD_map_range, hi, if_pos] at h1 ⊢
      split at h1
      · split
        · rfl
        · omega
      · omega
    · intro h1
      simp only [thresholdBinary, getD_map_range, hi, if_pos] at h1 ⊢
      split at h1
      · split
        · rfl
        · omega
      · omega
  · constructor <;> intro h1 <;>
      simp only [thresholdBinary, getD_map_range, if_neg hi] at h1 <;> omega

theorem c2aux_m12 : shouldMerge (1 / 100) 0 ⟨0, 0, 2, 10⟩ ⟨0, 8, 10, 2⟩ :=
  Or.inl (by norm_num [iou])

theorem c2aux_n13 : ¬ shouldMerge (1 / 100) 0 ⟨0, 0, 2, 10⟩ ⟨5, 3, 2, 2⟩ := by
  rintro (h | h)
  · norm_num [iou] at h
  · simp only [edgeDistance] at h
    norm_num at h
    have h9 : (0 : ℝ) < Real.sqrt 9 := Real.sqrt_pos.mpr (by norm_num)
    linarith

theorem c2aux_n23 : ¬ shouldMerge (1 / 100) 0 ⟨0, 8, 10, 2⟩ ⟨5, 3, 2, 2⟩ := by
  rintro (h | h)
  · norm_num [iou] at h
  · simp only [edgeDistance] at h
    norm_num at h
    have h9 : (0 : ℝ) < Real.sqrt 9 := Real.sqrt_pos.mpr (by norm_num)
    linarith

theorem c2aux_m2 : shouldMerge (1 / 100) 0 ⟨0, 0, 10, 10⟩ ⟨5, 3, 2, 2⟩ :=
  Or.inl (by norm_num [iou])

theorem c2aux_bp1 :
    buildParent [⟨0, 0, 2, 10⟩, ⟨0, 8, 10, 2⟩, ⟨5, 3, 2, 2⟩] (1 / 100) 0 = [0, 0, 2] := by
  simp only [buildParent]
  rw [show ([⟨0, 0, 2, 10⟩, ⟨0, 8, 10, 2⟩, ⟨5, 3, 2, 2⟩] : List Rect).length = 3 from rfl,
    show pairList 3 = [(0, 1), (0, 2), (1, 2)] from rfl]
  simp only [List.foldl_cons, List.foldl_nil, List.getD_cons_zero, List.getD_cons_succ]
  rw [if_pos c2aux_m12, if_neg c2aux_n13, if_neg c2aux_n23]
  decide

theorem c2aux_bp2 :
    buildParent [⟨0, 0, 10, 10⟩, ⟨5, 3, 2, 2⟩] (1 / 100) 0 = [0, 0] := by
  simp only [buildParent]
  rw [show ([⟨0, 0, 10, 10⟩, ⟨5, 3, 2, 2⟩] : List Rect).length = 2 from rfl,
    show pairList 2 = [(0, 1)] from rfl]
  simp only [List.foldl_cons, List.foldl_nil, List.getD_cons_zero, List.getD_cons_succ]
  rw [if_pos c2aux_m2]
  decide

theorem c2aux_pass1 :
    nmsMergeRects [⟨some 0, some 0, some 2, some 10⟩, ⟨some 0, some 8, some 10, some 2⟩,
        ⟨some 5, some 3, some 2, some 2⟩] (1 / 100) 0
      = [⟨0, 0, 10, 10⟩, ⟨5, 3, 2, 2⟩] := by
  simp only [nmsMergeRects]
  rw [show ([⟨some 0, some 0, some 2, some 10⟩, ⟨some 0, some 8, some 10, some 2⟩,
        ⟨some 5, some 3, some 2, some 2⟩] : List JRect).filterMap JRect.toFinite
      = [⟨0, 0, 2, 10⟩, ⟨0, 8, 10, 2⟩, ⟨5, 3, 2, 2⟩] from rfl]
  rw [if_neg (by norm_num)]
  rw [show max (0 : ℚ) (min 1 (1 / 100)) = 1 / 100 by norm_num,
    show max (0 : ℚ) 0 = 0 by norm_num]
  rw [c2aux_bp1]
  rw [show ([⟨0, 0, 2, 10⟩, ⟨0, 8, 10, 2⟩, ⟨5, 3, 2, 2⟩] : List Rect).length = 3 from rfl]
  rw [show (List.range 3).map (fun i => findRoot 3 [0, 0, 2] i) = [0, 0, 2] from rfl,
    show firstDedup [0, 0, 2] = [0, 2] from rfl]
  simp only [List.map_cons, List.map_nil]
  rw [show (List.range 3).filter (fun i => findRoot 3 [0, 0, 2] i = 0) = [0, 1] from rfl,
    show (List.range 3).filter (fun i => findRoot 3 [0, 0, 2] i = 2) = [2] from rfl]
  simp only [List.map_cons, List.map_nil, List.getD_cons_zero, List.getD_cons_succ]
  norm_num [unionAll, Geom.union, List.foldl_cons, List.foldl_nil, Rect.mk.injEq]

theorem c2aux_pass2 :
    nmsMergeRects ([(⟨0, 0, 10, 10⟩ : Rect), ⟨5, 3, 2, 2⟩].map Rect.toJ) (1 / 100) 0
      = [⟨0, 0, 10, 10⟩] := by
  simp only [nmsMergeRects]
  rw [show (([(⟨0, 0, 10, 10⟩ : Rect), ⟨5, 3, 2, 2⟩].map Rect.toJ)).filterMap JRect.toFinite
      = [⟨0, 0, 10, 10⟩, ⟨5, 3, 2, 2⟩] from rfl]
  rw [if_neg (by norm_num)]
  rw [show max (0 : ℚ) (min 1 (1 / 100)) = 1 / 100 by norm_num,
    show max (0 : ℚ) 0 = 0 by norm_num]
  rw [c2aux_bp2]
  rw [show ([⟨0, 0, 10, 10⟩, ⟨5, 3, 2, 2⟩] : List Rect).length = 2 from rfl]
  rw [show (List.range 2).map (fun i => findRoot 2 [0, 0] i) = [0, 0] from rfl,
    show firstDedup [0, 0] = [0] from rfl]
  simp only [List.map_cons, List.map_nil]
  rw [show (List.range 2).filter (fun i => findRoot 2 [0, 0] i = 0) = [0, 1] from rfl]
  simp only [List.map_cons, List.map_nil, List.getD_cons_zero, List.getD_cons_succ]
  norm_num [unionAll, Geom.union, List.foldl_cons, List.foldl_nil, Rect.mk.injEq]

/-- C2 counterexample: three finite rectangles (a vertical bar, a horizontal
bar forming an L, and a small box inside the L's bounding box but away from
both bars) with `iouThresh = 1/100`, `distancePx = 0`.  One application of
`nmsMergeRects` yields two distinct rectangles; applying it again to that
output merges them into one, so the result is not the same set. -/
theorem c2_counterexample :
    nmsMergeRects [⟨some 0, some 0, some 2, some 10⟩, ⟨some 0, some 8, some 10, some 2⟩,
        ⟨some 5, some 3, some 2, some 2⟩] (1 / 100) 0
      = [⟨0, 0, 10, 10⟩, ⟨5, 3, 2, 2⟩]
    ∧ (⟨0, 0, 10, 10⟩ : Rect) ≠ ⟨5, 3, 2, 2⟩
    ∧ nmsMergeRects
        ((nmsMergeRects [⟨some 0, some 0, some 2, some 10⟩,
            ⟨some 0, some 8, some 10, some 2⟩, ⟨some 5, some 3, some 2, some 2⟩]
          (1 / 100) 0).map Rect.toJ) (1 / 100) 0
      = [⟨0, 0, 10, 10⟩] := by
  refine ⟨c2aux_pass1, ?_, ?_⟩
  · intro hcontra
    rw [Rect.mk.injEq] at hcontra
    norm_num at hcontra
  · rw [c2aux_pass1]
    exact c2aux_pass2

theorem getD_replicate {α : Type} (n i : ℕ) (a d : α) :
    (List.replicate n a).getD i d = if i < n then a else d := by
  rw [List.getD_eq_getElem?_getD, List.getElem?_replicate]
  split
  · rfl
  · rfl

theorem toGrayscale_uniform (n pr pg pb pa : ℕ) :
    toGrayscale (uniformRGBA n pr pg pb pa)
      = List.replicate n ((⌊Metadata.luma pr pg pb⌋).toNat % 256) := by
  induction n with
  | zero => rfl
  | succ m ih => simp [uniformRGBA, toGrayscale, ih, List.replicate_succ]

theorem sobelMag_const (c w h : ℕ) :
    sobelMag (List.replicate (w * h) c) w h = List.replicate (w * h) (0 : ℝ) := by
  simp only [sobelMag]
  rw [show List.replicate (w * h) (0 : ℝ) = (List.range (w * h)).map fun _ => (0 : ℝ) by
    rw [List.map_const', List.length_range]]
  apply List.map_congr_left
  intro p hp
  dsimp only
  split
  case isFalse => rfl
  case isTrue hin =>
    obtain ⟨hx1, hx2, hy1, hy2⟩ := hin
    have hp2 := List.mem_range.mp hp
    have e1 : w * (p / w) + p % w = p := Nat.div_add_mod p w
    have hkey : p + w + 1 < w * h := by
      have e2 : p + w + 1 < w * (p / w + 2) := by
        have : p + w + 1 = w * (p / w) + p % w + w + 1 := by omega
        rw [this]
        have : w * (p / w + 2) = w * (p / w) + w + w := by ring
        omega
      exact lt_of_lt_of_le e2 (Nat.mul_le_mul_left w (by omega))
    have hg : ∀ q, q ≤ p + w + 1 → (List.replicate (w * h) c).getD q 0 = c := by
      intro q hq
      rw [getD_replicate, if_pos (by omega)]
    rw [hg (p - w - 1) (by omega), hg (p - 1) (by omega), hg (p + w - 1) (by omega),
      hg (p - w + 1) (by omega), hg (p + 1) (by omega), hg (p + w + 1) (by omega),
      hg (p - w) (by omega), hg (p + w) (by omega)]
    have hz : (-(c : ℝ) - 2 * c - c + c + 2 * c + c) ^ 2
        + (-(c : ℝ) - 2 * c - c + c + 2 * c + c) ^ 2 = 0 := by ring
    rw [hz, Real.sqrt_zero]

theorem map_getD_self {α : Type} (n : ℕ) (a d : α) :
    ((List.range n).map fun i => (List.replicate n a).getD i d) = List.replicate n a := by
  have h1 : ((List.range n).map fun i => (List.replicate n a).getD i d)
      = (List.range n).map fun _ => a := by
    apply List.map_congr_left
    intro i hi
    rw [getD_replicate, if_pos (List.mem_range.mp hi)]
  rw [h1, List.map_const', List.length_range]

theorem foldl_min_replicate (k : ℕ) (a : ℝ) : (List.replicate k a).foldl min a = a := by
  induction k with
  | zero => rfl
  | succ m ih => simpa [List.replicate_succ, min_self] using ih

theorem foldl_max_replicate (k : ℕ) (a : ℝ) : (List.replicate k a).foldl max a = a := by
  induction k with
  | zero => rfl
  | succ m ih => simpa [List.replicate_succ, max_self] using ih

theorem normalizeToUint8_zero (w h : ℕ) :
    normalizeToUint8 (List.replicate (w * h) (0 : ℝ)) w h = List.replicate (w * h) 0 := by
  simp only [normalizeToUint8]
  rw [map_getD_self]
  cases hn : w * h with
  | zero => rfl
  | succ m =>
      simp only [List.replicate_succ]
      rw [foldl_min_replicate, foldl_max_replicate, if_neg (lt_irrefl (0 : ℝ))]
      simp only [List.map_cons, List.map_replicate]
      norm_num

theorem otsuStep_error (hist : ℕ → ℕ) (total : ℕ) (sum : ℚ) (l : List ℕ) (thr : ℕ) :
    l.foldl (otsuStep hist total sum) (Except.error thr) = Except.error thr := by
  induction l with
  | nil => rfl
  | cons a t ih => simpa [otsuStep] using ih

theorem otsuStep_zero_hist (hist : ℕ → ℕ) (total : ℕ) (sum : ℚ) (l : List ℕ)
    (h : ∀ t ∈ l, hist t = 0) (sumB : ℚ) (varMax : ℚ) (thr : ℕ) :
    l.foldl (otsuStep hist total sum) (Except.ok (sumB, 0, varMax, thr))
      = Except.ok (sumB, 0, varMax, thr) := by
  induction l with
  | nil => rfl
  | cons a t ih =>
      rw [List.foldl_cons]
      have ha : hist a = 0 := h a (List.mem_cons_self a t)
      have hstep : otsuStep hist total sum (Except.ok (sumB, 0, varMax, thr)) a
          = Except.ok (sumB, 0, varMax, thr) := by
        simp [otsuStep, ha]
      rw [hstep]
      exact ih fun t ht => h t (List.mem_cons_of_mem a ht)

theorem otsu_uniform_zero (n : ℕ) :
    otsuThreshold (fun t => (List.replicate n (0 : ℕ)).count t) n = 0 := by
  rcases Nat.eq_zero_or_pos n with hn | hn
  · subst hn
    simp only [otsuThreshold]
    rw [otsuStep_zero_hist _ _ _ _ (fun t _ => by simp)]
    rfl
  · simp only [otsuThreshold]
    rw [show (256 : ℕ) = 255 + 1 from rfl, List.range_succ_eq_map, List.foldl_cons]
    have hstep : ∀ sum : ℚ, otsuStep (fun t => (List.replicate n (0 : ℕ)).count t) n sum
        (Except.ok (0, 0, 0, 0)) 0 = Except.error 0 := by
      intro sum
      simp [otsuStep, List.count_replicate_self, Nat.pos_iff_ne_zero.mp hn, Nat.sub_self]
    rw [hstep, otsuStep_error]
    rfl

theorem thresholdBinary_zero (w h : ℕ) (sens : Sens) :
    thresholdBinary (List.replicate (w * h) 0) w h sens = List.replicate (w * h) 0 := by
  have hthr : 0 ≤ effectiveThreshold (List.replicate (w * h) 0) w h sens := by
    simp only [effectiveThreshold]
    exact le_max_left _ _
  simp only [thresholdBinary]
  conv_rhs => rw [show List.replicate (w * h) (0 : ℕ) = (List.range (w * h)).map fun _ => (0 : ℕ)
    by rw [List.map_const', List.length_range]]
  apply List.map_congr_left
  intro i _
  have hg : (List.replicate (w * h) (0 : ℕ)).getD i 0 = 0 := by
    rw [getD_replicate]
    split
    · rfl
    · rfl
  rw [hg]
  rw [if_neg]
  rw [Nat.cast_zero]
  exact not_lt.mpr hthr

theorem dilate_zero (w h r : ℕ) :
    dilate (List.replicate (w * h) 0) w h r = List.replicate (w * h) 0 := by
  simp only [dilate]
  conv_rhs => rw [show List.replicate (w * h) (0 : ℕ) = (List.range (w * h)).map fun _ => (0 : ℕ)
    by rw [List.map_const', List.length_range]]
  apply List.map_congr_left
  intro p _
  have hany : ((window w h (max 1 r) p).any fun q =>
      decide ((List.replicate (w * h) (0 : ℕ)).getD q 0 ≠ 0)) = false := by
    apply List.any_eq_false.mpr
    intro q _
    simp [getD_replicate]
  rw [hany]
  rfl

theorem mem_range'_one (s n m : ℕ) (h1 : s ≤ m) (h2 : m < s + n) : m ∈ List.range' s n := by
  apply List.mem_range'.mpr
  exact ⟨m - s, by omega, by omega⟩

theorem mem_window (w h r x y : ℕ) (hx : x < w) (hy : y < h) :
    y * w + x ∈ window w h r (y * w + x) := by
  have e1 : (y * w + x) % w = x := by
    rw [Nat.mul_comm y w, Nat.mul_add_mod, Nat.mod_eq_of_lt hx]
  have e2 : (y * w + x) / w = y := by
    rw [Nat.mul_comm y w, Nat.mul_add_div (by omega : 0 < w), Nat.div_eq_of_lt hx]
    omega
  simp only [window, e1, e2]
  apply List.mem_flatMap.mpr
  refine ⟨y, mem_range'_one _ _ _ (by omega) ?_, ?_⟩
  · have hmy : y ≤ min (h - 1) (y + r) := le_min (by omega) (by omega)
    omega
  · apply List.mem_map.mpr
    refine ⟨x, mem_range'_one _ _ _ (by omega) ?_, rfl⟩
    have hmx : x ≤ min (w - 1) (x + r) := le_min (by omega) (by omega)
    omega

theorem mem_window_self (w h r p : ℕ) (hp : p < w * h) : p ∈ window w h r p := by
  have hw : 0 < w := by
    rcases Nat.eq_zero_or_pos w with h0 | h0
    · subst h0
      simp at hp
    · exact h0
  have hx : p % w < w := Nat.mod_lt _ hw
  have hy : p / w < h := by
    rw [Nat.div_lt_iff_lt_mul hw]
    calc p < w * h := hp
      _ = h * w := by ring
  have hmem := mem_window w h r (p % w) (p / w) hx hy
  rwa [Nat.div_add_mod' p w] at hmem

theorem erode_zero (w h r : ℕ) :
    erode (List.replicate (w * h) 0) w h r = List.replicate (w * h) 0 := by
  simp only [erode]
  conv_rhs => rw [show List.replicate (w * h) (0 : ℕ) = (List.range (w * h)).map fun _ => (0 : ℕ)
    by rw [List.map_const', List.length_range]]
  apply List.map_congr_left
  intro p hp
  have hall : ((window w h (max 1 r) p).all fun q =>
      decide ((List.replicate (w * h) (0 : ℕ)).getD q 0 ≠ 0)) = false := by
    apply List.all_eq_false.mpr
    exact ⟨p, mem_window_self w h (max 1 r) p (List.mem_range.mp hp), by simp [getD_replicate]⟩
  rw [hall]
  rfl

theorem foldl_id {α β : Type} (f : β → α → β) (l : List α) (b : β)
    (h : ∀ st x, f st x = st) : l.foldl f b = b := by
  induction l generalizing b with
  | nil => rfl
  | cons a t ih => rw [List.foldl_cons, h, ih]

theorem cc_zero (w h : ℕ) : ccBoundingRects (List.replicate (w * h) 0) w h = [] := by
  simp only [ccBoundingRects]
  rw [foldl_id _ _ _ fun st p => if_pos (Or.inl (by rw [getD_replicate]; split <;> rfl))]

/-- C3: the heuristic detector run on a blank/uniform image (all pixels
equal, so no edges) produces an empty polygon list as a successful result:
the Sobel magnitude map is all zero, normalization and Otsu thresholding
yield an all-zero mask, morphological close keeps it all-zero, and
connected-component extraction finds no rectangles, so no polygon is
emitted for any sensitivity or upscale factors. -/
theorem c3_blank_image (w h pr pg pb pa : ℕ) (sens : Sens) (sx sy : ℚ) :
    detectHeuristic (uniformRGBA (w * h) pr pg pb pa) w h sens sx sy = [] := by
  simp only [detectHeuristic]
  rw [toGrayscale_uniform, sobelMag_const, normalizeToUint8_zero, thresholdBinary_zero,
    dilate_zero, erode_zero, cc_zero]
  rfl
